import Mathlib

/-!
# phardi: `create_Kernel_for_dotr2`

A shallow embedding of `src/include/create_kernel_for_dotr2.hpp`.

The element type `T` of the C++ template is a type `K` carrying field
operations; the constants `datum::pi` and `std::sqrt` are passed in, so that
every definition can be evaluated over `ℚ` and every theorem also holds over
`ℝ` with the true `π`.  The addition that accumulates the row sums of the
gradient table, whose result is compared with zero, is passed in as well: the
classification then holds for the rounded addition of `T`, whatever it is.
Matrices are lists of rows, column vectors are lists.
The locals `L`, `Lmax` stay far below any machine bound (`Lmax ≤ 8` after the
cap, `L ≤ 10`), so they are plain natural numbers; `m` runs over the integers.
-/

namespace Phardi

/-- Dense matrix `arma::Mat<T>`, stored as the list of its rows. -/
abbrev Mat (K : Type) := List (List K)

/-- Modelled from the spec: the method enumeration of `common.hpp` is not among
the sources. The two methods the function handles are named as in the source
(`QBI_DOTR2`, `QBI_CSA`); every other enumerator is `other tag`. -/
inductive ReconsMethod where
  | QBI_DOTR2 : ReconsMethod
  | QBI_CSA : ReconsMethod
  | other (tag : Nat) : ReconsMethod
  deriving DecidableEq

/-- Modelled from the spec: the record `phardi::options` of `common.hpp` is not
among the sources. Only the two members the function reads are kept:
`opts.reconsMethod` and `opts.qbi.lambda`. -/
structure options (K : Type) where
  reconsMethod : ReconsMethod
  lambda : K

/-- The numeric constants and library functions the function body uses:
`datum::pi`, `sqrt`, and `add`, the addition of `T` (rounded, for `float` and
`double`) with which `sum` accumulates. -/
structure Datum (K : Type) where
  pi : K
  sqrt : K → K
  add : K → K → K

/-- Modelled from the spec: `obtain_Lmax`, `construct_SH_basis` and
`recon_matrix` are declared in headers that are not among the sources. They are
taken as given functions: `obtain_Lmax` yields the pair `(Lmax, Nmin)` it
writes, `construct_SH_basis` the basis matrix it writes, `recon_matrix` the
kernel it returns. -/
structure Externals (K : Type) where
  obtain_Lmax : Mat K → Nat × Nat
  construct_SH_basis : Nat → Mat K → Mat K
  recon_matrix : Mat K → Mat K → K → Mat K

/-- Modelled from the spec: the range helper `span<Row<T>>` of `common.hpp` is
not among the sources. It builds the arithmetic progression
`a, a+step, ..., ≤ b` that the source comment writes `a:step:b` (the spec's
"1,3,...,(L+1)"), and is empty when `b < a` (the spec's "range (2..0) is
empty"). -/
def span3 (a step b : Int) : List Int :=
  if b < a then [] else (List.range ((b - a) / step + 1).toNat).map (fun (i : Nat) => a + step * (i : Int))

/-- Modelled from the spec: the two-argument form `span<Row<T>>(a, b)` of the
same missing helper, called once, as `span<Row<T>>(2, (L-2))`. The spec gives
the numbers it yields there as the "even integers 2,4,...,(L−2)", none for the
"range (2..0)": from `a` on in steps of 2, up to `b`. -/
def span2 (a b : Int) : List Int := span3 a 2 b

/-- Armadillo `prod` of a row of integers converted to `T`; the product of an
empty row is `1`. -/
def prod {K : Type} [Field K] (xs : List Int) : K := (xs.map (fun (z : Int) => (z : K))).prod

/-- The table `Col<T> Vector = {1, 3/32, 15/64, 210/1536, 630/15360,
13860/1720320}` of line 91: each initialiser is an expression of C++ type
`int`, so `/` is integer division, and the quotient is then converted to `T`. -/
def Vector (K : Type) [Field K] : List K :=
  [((1 : Int) : K), ((3 / 32 : Int) : K), ((15 / 64 : Int) : K), ((210 / 1536 : Int) : K),
   ((630 / 15360 : Int) : K), ((13860 / 1720320 : Int) : K)]

/-- Element access `Vector(i)` with Armadillo's bounds check. -/
def Vector_at (K : Type) [Field K] (i : Nat) : Except String K :=
  match (Vector K)[i]? with
  | some v => Except.ok v
  | none => Except.error "Mat::operator(): index out of bounds"

/-- The index expression `L/2.0+1` of line 106, converted to `uword`. -/
def Vector_index (L : Nat) : Nat := L / 2 + 1

/-- Line 106: `pow(-1, L/2.0) * Vector(L/2.0+1) * (4/datum::pi)`. `L` is even at
every call, so `pow(-1, L/2.0)` is `(-1)^(L/2)`. -/
def factor_dot_r2 {K : Type} [Field K] (c : Datum K) (L : Nat) : Except String K := do
  let v ← Vector_at K (Vector_index L)
  pure ((-1 : K) ^ (L / 2) * v * (4 / c.pi))

/-- Lines 114-119: the CSA-QBI factor. `L` never is negative, so the source's
`if (L > 0) ... else if (L == 0) ...` always assigns. -/
def factor_csa {K : Type} [Field K] (c : Datum K) (L : Nat) : K :=
  if 0 < L then
    (-(1 : K) / (8 * c.pi)) * ((-1 : K) ^ (L / 2)) * prod (span3 1 2 ((L : Int) + 1))
      / prod (span2 2 ((L : Int) - 2))
  else
    1 / (2 * c.sqrt c.pi)

/-- Line 126: `pow(L, 2) * pow((L+1.0), 2)`. -/
def laplac_weight {K : Type} [Field K] (L : Nat) : K := (L : K) ^ 2 * ((L : K) + 1) ^ 2

/-- The three `std::vector<T>` accumulators of lines 55-57. -/
structure Acc (K : Type) where
  K_dot_r2_v : List K
  K_csa_v : List K
  Laplac2_v : List K

/-- Lines 101-126: the body of the inner loop, a `switch` without `default`
followed by the unconditional push to `Laplac2_v`. -/
def loop_body {K : Type} [Field K] (c : Datum K) (method : ReconsMethod) (L : Nat)
    (acc : Acc K) : Except String (Acc K) := do
  let acc1 ← (match method with
    | ReconsMethod.QBI_DOTR2 => do
        let f ← factor_dot_r2 c L
        pure { acc with K_dot_r2_v := acc.K_dot_r2_v ++ [f] }
    | ReconsMethod.QBI_CSA =>
        pure { acc with K_csa_v := acc.K_csa_v ++ [factor_csa c L] }
    | ReconsMethod.other _ => pure acc : Except String (Acc K))
  pure { acc1 with Laplac2_v := acc1.Laplac2_v ++ [laplac_weight L] }

/-- Line 99: `for (m = -(L); m <= L; ++m)`, entered at the current `m`. -/
def inner_loop {K : Type} [Field K] (c : Datum K) (method : ReconsMethod) (L : Nat)
    (m : Int) (acc : Acc K) : Except String (Acc K) :=
  if m ≤ (L : Int) then
    match loop_body c method L acc with
    | Except.ok acc1 => inner_loop c method L (m + 1) acc1
    | Except.error e => Except.error e
  else
    Except.ok acc
termination_by ((L : Int) - m + 1).toNat
decreasing_by omega

/-- Line 98: `for (L = 0; L <= Lmax; L+=2)`, entered at the current `L`. -/
def outer_loop {K : Type} [Field K] (c : Datum K) (method : ReconsMethod) (Lmax : Nat)
    (L : Nat) (acc : Acc K) : Except String (Acc K) :=
  if L ≤ Lmax then
    match inner_loop c method L (-(L : Int)) acc with
    | Except.ok acc1 => outer_loop c method Lmax (L + 2) acc1
    | Except.error e => Except.error e
  else
    Except.ok acc
termination_by Lmax + 1 - L
decreasing_by omega

/-- Lines 66-68: `if (Lmax >= 8) Lmax = 8;`. -/
def cap_Lmax (Lmax : Nat) : Nat := if Lmax ≥ 8 then 8 else Lmax

/-- The sum of one row as Armadillo accumulates it: entry after entry, with
the addition of `T`. -/
def row_sum {K : Type} [Field K] (c : Datum K) (row : List K) : K := row.foldl c.add 0

/-- Armadillo `sum(M, 1)`: the sum of the entries of each row. -/
def sum_rows {K : Type} [Field K] (c : Datum K) (M : Mat K) : List K := M.map (row_sum c)

/-- Armadillo `find(v == 0)`: the positions of the zero entries, ascending. -/
def find_eq_zero {K : Type} [Field K] [DecidableEq K] (v : List K) : List Nat :=
  (List.range v.length).filter (fun (i : Nat) => decide (v.getD i 0 = 0))

/-- Armadillo `find(v != 0)`: the positions of the nonzero entries, ascending. -/
def find_ne_zero {K : Type} [Field K] [DecidableEq K] (v : List K) : List Nat :=
  (List.range v.length).filter (fun (i : Nat) => decide (v.getD i 0 ≠ 0))

/-- Armadillo `M.rows(idx)`: the rows of `M` at the listed positions. -/
def rows {K : Type} (M : Mat K) (idx : List Nat) : Mat K := idx.map (fun (i : Nat) => M.getD i [])

/-- Armadillo `diagmat(v)`: the square matrix with `v` on the diagonal. -/
def diagmat {K : Type} [Field K] (v : List K) : Mat K :=
  (List.range v.length).map (fun (i : Nat) =>
    (List.range v.length).map (fun (j : Nat) => if i = j then v.getD i 0 else 0))

/-- The values the function leaves behind: its output arguments `Kernel`,
`basisV`, `K_dot_r2`, `K_csa`, together with the locals the specification
speaks of. -/
structure Result (K : Type) where
  Lmax : Nat
  indb0 : List Nat
  indb1 : List Nat
  basisG : Mat K
  basisV : Mat K
  K_dot_r2 : List K
  K_csa : List K
  Laplac2 : List K
  Laplac : Mat K
  Kernel : Mat K

/-- Lines 38-147: `create_Kernel_for_dotr2`. An `Except.error` is an exception
leaving the function. As in the source, `diffBvals` is not read. -/
def create_Kernel_for_dotr2 {K : Type} [Field K] [DecidableEq K] (ext : Externals K)
    (c : Datum K) (V diffGrads : Mat K) (diffBvals : List K) (opts : options K) :
    Except String (Result K) :=
  let Lmax := cap_Lmax (ext.obtain_Lmax diffGrads).1
  let indb0 := find_eq_zero (sum_rows c diffGrads)
  let indb1 := find_ne_zero (sum_rows c diffGrads)
  let basisG := ext.construct_SH_basis Lmax (rows diffGrads indb1)
  let basisV := ext.construct_SH_basis Lmax V
  match outer_loop c opts.reconsMethod Lmax 0 { K_dot_r2_v := [], K_csa_v := [], Laplac2_v := [] } with
  | Except.error e => Except.error e
  | Except.ok acc =>
    let Laplac := diagmat acc.Laplac2_v
    Except.ok
      { Lmax := Lmax, indb0 := indb0, indb1 := indb1, basisG := basisG, basisV := basisV,
        K_dot_r2 := acc.K_dot_r2_v, K_csa := acc.K_csa_v, Laplac2 := acc.Laplac2_v,
        Laplac := Laplac, Kernel := ext.recon_matrix basisG Laplac opts.lambda }

/-! ## Definitions used to state the properties -/

/-- The orders the outer loop is meant to visit: `0, 2, 4, ...` up to `Lmax`. -/
def even_orders (Lmax : Nat) : List Nat := (List.range (Lmax / 2 + 1)).map (fun (i : Nat) => 2 * i)

/-- The layout of a coefficient vector: for `k` successive orders `L, L+2, ...`
a block of `2L+1` copies of `f L` each. -/
def blocks_from {K : Type} (L k : Nat) (f : Nat → K) : List K :=
  ((List.range k).map (fun (i : Nat) => List.replicate (2 * (L + 2 * i) + 1) (f (L + 2 * i)))).flatten

/-- The layout of a coefficient vector: for every even order `L ≤ Lmax`, in
increasing order, a block of `2L+1` copies of `f L`. -/
def blocks {K : Type} (Lmax : Nat) (f : Nat → K) : List K :=
  ((even_orders Lmax).map (fun (L : Nat) => List.replicate (2 * L + 1) (f L))).flatten

/-- The value the DOT-R2 branch pushes at order `L` once the lookup succeeded. -/
def dot_r2_value {K : Type} [Field K] (c : Datum K) (L : Nat) : K :=
  (-1 : K) ^ (L / 2) * (Vector K).getD (Vector_index L) 0 * (4 / c.pi)

/-- What one pass of the loop body appends to `K_dot_r2_v`, `n` times over. -/
def dot_r2_block {K : Type} [Field K] (c : Datum K) (method : ReconsMethod) (L n : Nat) : List K :=
  match method with
  | ReconsMethod.QBI_DOTR2 => List.replicate n (dot_r2_value c L)
  | _ => []

/-- What one pass of the loop body appends to `K_csa_v`, `n` times over. -/
def csa_block {K : Type} [Field K] (c : Datum K) (method : ReconsMethod) (L n : Nat) : List K :=
  match method with
  | ReconsMethod.QBI_CSA => List.replicate n (factor_csa c L)
  | _ => []

/-- The specification's constant table, as rational numbers:
`V = {1, 3/32, 15/64, 210/1536, 630/15360, 13860/1720320}`. -/
def spec_Vector (K : Type) [Field K] : List K :=
  [1, 3 / 32, 15 / 64, 210 / 1536, 630 / 15360, 13860 / 1720320]

/-- The specification's DOT-R2 factor: `(-1)^(L/2) * V(L/2) * (4/pi)`, with `V`
read 0-based. -/
def spec_factor_dot_r2 {K : Type} [Field K] (pi : K) (L : Nat) : K :=
  (-1 : K) ^ (L / 2) * (spec_Vector K).getD (L / 2) 0 * (4 / pi)

/-- The specification's CSA-QBI factor for `L > 0`:
`(-1/(8*pi)) * (-1)^(L/2) * (1*3*...*(L+1)) / (2*4*...*(L-2))`, an empty
product being `1`. -/
def spec_factor_csa {K : Type} [Field K] (pi : K) (L : Nat) : K :=
  (-(1 : K) / (8 * pi)) * ((-1 : K) ^ (L / 2))
    * (((List.range (L / 2 + 1)).map (fun (i : Nat) => ((2 * i + 1 : Nat) : K))).prod)
    / (((List.range (L / 2 - 1)).map (fun (i : Nat) => ((2 * i + 2 : Nat) : K))).prod)

/-- Stand-ins for the three absent helpers, used to run the function on a
concrete input: `obtain_Lmax` reports `Lmax = 6`, `Nmin = 28`. -/
def sample_externals (K : Type) : Externals K :=
  { obtain_Lmax := fun _ => (6, 28),
    construct_SH_basis := fun _ M => M,
    recon_matrix := fun _ Lap _ => Lap }

/-- A rational stand-in for the numeric constants, for evaluation; its addition
is exact, as the addition of `float` and `double` is on small integers. -/
def sample_datum : Datum ℚ := { pi := 355 / 113, sqrt := fun x => x, add := fun x y => x + y }

/-! ## The coefficient loops in closed form -/

theorem Vector_at_ok {K : Type} [Field K] (i : Nat) (h : i < 6) :
    Vector_at K i = Except.ok ((Vector K).getD i 0) := by
  unfold Vector_at
  interval_cases i <;> rfl

theorem factor_dot_r2_ok {K : Type} [Field K] (c : Datum K) (L : Nat) (h : L ≤ 9) :
    factor_dot_r2 c L = Except.ok (dot_r2_value c L) := by
  unfold factor_dot_r2 dot_r2_value
  have hi : Vector_index L < 6 := by unfold Vector_index; omega
  rw [Vector_at_ok _ hi]
  rfl

theorem loop_body_ok {K : Type} [Field K] (c : Datum K) (method : ReconsMethod) (L : Nat)
    (acc : Acc K) (h : method = ReconsMethod.QBI_DOTR2 → L ≤ 9) :
    loop_body c method L acc = Except.ok
      { K_dot_r2_v := acc.K_dot_r2_v ++ dot_r2_block c method L 1,
        K_csa_v := acc.K_csa_v ++ csa_block c method L 1,
        Laplac2_v := acc.Laplac2_v ++ [laplac_weight L] } := by
  cases method with
  | QBI_DOTR2 =>
    simp only [loop_body, factor_dot_r2_ok c L (h rfl), dot_r2_block, csa_block]
    simp [bind, Except.bind, pure, Except.pure]
  | QBI_CSA =>
    simp [loop_body, dot_r2_block, csa_block, bind, Except.bind, pure, Except.pure]
  | other t =>
    simp [loop_body, dot_r2_block, csa_block, bind, Except.bind, pure, Except.pure]

theorem dot_r2_block_succ {K : Type} [Field K] (c : Datum K) (method : ReconsMethod) (L n : Nat) :
    dot_r2_block c method L 1 ++ dot_r2_block c method L n = dot_r2_block c method L (n + 1) := by
  cases method <;> simp [dot_r2_block, List.replicate_succ]

theorem csa_block_succ {K : Type} [Field K] (c : Datum K) (method : ReconsMethod) (L n : Nat) :
    csa_block c method L 1 ++ csa_block c method L n = csa_block c method L (n + 1) := by
  cases method <;> simp [csa_block, List.replicate_succ]

theorem inner_loop_ok {K : Type} [Field K] (c : Datum K) (method : ReconsMethod) (L : Nat)
    (h : method = ReconsMethod.QBI_DOTR2 → L ≤ 9) :
    ∀ (n : Nat) (m : Int) (acc : Acc K), ((L : Int) - m + 1).toNat = n →
      inner_loop c method L m acc = Except.ok
        { K_dot_r2_v := acc.K_dot_r2_v ++ dot_r2_block c method L n,
          K_csa_v := acc.K_csa_v ++ csa_block c method L n,
          Laplac2_v := acc.Laplac2_v ++ List.replicate n (laplac_weight L) } := by
  intro n
  induction n with
  | zero =>
    intro m acc hn
    have hm : ¬ m ≤ (L : Int) := by omega
    rw [inner_loop, if_neg hm]
    cases method <;> simp [dot_r2_block, csa_block]
  | succ n ih =>
    intro m acc hn
    have hm : m ≤ (L : Int) := by omega
    rw [inner_loop, if_pos hm, loop_body_ok c method L acc h]
    simp only
    rw [ih (m + 1) _ (by omega)]
    simp only [List.append_assoc, dot_r2_block_succ, csa_block_succ]
    simp [List.replicate_succ]

theorem blocks_from_zero {K : Type} (L : Nat) (f : Nat → K) : blocks_from L 0 f = [] := by
  simp [blocks_from]

theorem blocks_from_succ {K : Type} (L k : Nat) (f : Nat → K) :
    blocks_from L (k + 1) f = List.replicate (2 * L + 1) (f L) ++ blocks_from (L + 2) k f := by
  simp only [blocks_from, List.range_succ_eq_map, List.map_cons, List.flatten_cons, List.map_map]
  have hshift : ∀ i : Nat, L + 2 * (i + 1) = L + 2 + 2 * i := fun i => by ring
  have hfun : ((fun i => List.replicate (2 * (L + 2 * i) + 1) (f (L + 2 * i))) ∘ Nat.succ)
      = (fun i => List.replicate (2 * (L + 2 + 2 * i) + 1) (f (L + 2 + 2 * i))) := by
    funext i
    simp only [Function.comp, Nat.succ_eq_add_one, hshift]
  rw [hfun]
  simp

theorem outer_loop_ok {K : Type} [Field K] (c : Datum K) (method : ReconsMethod) (Lmax : Nat)
    (h : method = ReconsMethod.QBI_DOTR2 → Lmax ≤ 9) :
    ∀ (k L : Nat) (acc : Acc K), (Lmax + 2 - L) / 2 = k →
      outer_loop c method Lmax L acc = Except.ok
        { K_dot_r2_v := acc.K_dot_r2_v ++ match method with
            | ReconsMethod.QBI_DOTR2 => blocks_from L k (dot_r2_value c)
            | _ => [],
          K_csa_v := acc.K_csa_v ++ match method with
            | ReconsMethod.QBI_CSA => blocks_from L k (factor_csa c)
            | _ => [],
          Laplac2_v := acc.Laplac2_v ++ blocks_from L k laplac_weight } := by
  intro k
  induction k with
  | zero =>
    intro L acc hk
    have hL : ¬ L ≤ Lmax := by omega
    rw [outer_loop, if_neg hL]
    cases method <;> simp [blocks_from_zero]
  | succ k ih =>
    intro L acc hk
    have hL : L ≤ Lmax := by omega
    have hin := inner_loop_ok c method L (fun hm => le_trans hL (h hm)) (2 * L + 1)
      (-(L : Int)) acc (by omega)
    rw [outer_loop, if_pos hL, hin]
    simp only
    rw [ih (L + 2) _ (by omega)]
    cases method <;> simp [blocks_from_succ, dot_r2_block, csa_block]

theorem blocks_from_zero_start {K : Type} (Lmax : Nat) (f : Nat → K) :
    blocks_from 0 (Lmax / 2 + 1) f = blocks Lmax f := by
  simp only [blocks_from, blocks, even_orders, List.map_map, Nat.zero_add]
  rfl

theorem cap_Lmax_le (n : Nat) : cap_Lmax n ≤ 8 := by
  unfold cap_Lmax
  split <;> omega

theorem mem_even_orders (Lmax L : Nat) : L ∈ even_orders Lmax ↔ L % 2 = 0 ∧ L ≤ Lmax := by
  simp only [even_orders, List.mem_map, List.mem_range]
  constructor
  · rintro ⟨i, hi, rfl⟩
    omega
  · rintro ⟨h1, h2⟩
    exact ⟨L / 2, by omega, by omega⟩

theorem blocks_congr {K : Type} (Lmax : Nat) (f g : Nat → K)
    (h : ∀ L, L % 2 = 0 → L ≤ Lmax → f L = g L) : blocks Lmax f = blocks Lmax g := by
  unfold blocks
  congr 1
  apply List.map_congr_left
  intro L hL
  rw [mem_even_orders] at hL
  rw [h L hL.1 hL.2]

theorem blocks_head {K : Type} (Lmax : Nat) (f : Nat → K) :
    blocks Lmax f = f 0 :: blocks_from 2 (Lmax / 2) f := by
  rw [← blocks_from_zero_start, blocks_from_succ]
  rfl

theorem blocks_length {K : Type} (Lmax : Nat) (f : Nat → K) :
    (blocks Lmax f).length = ((even_orders Lmax).map (fun L => 2 * L + 1)).sum := by
  simp only [blocks, List.length_flatten, List.map_map]
  congr 1
  apply List.map_congr_left
  intro L _
  simp

theorem sum_even_orders (Lmax : Nat) :
    ((even_orders Lmax).map (fun L => 2 * L + 1)).sum = (Lmax / 2 + 1) * (2 * (Lmax / 2) + 1) := by
  unfold even_orders
  generalize Lmax / 2 = k
  induction k with
  | zero => rfl
  | succ k ih =>
    rw [List.range_succ, List.map_append, List.map_append, List.sum_append, ih]
    simp only [List.map_cons, List.map_nil, List.sum_cons, List.sum_nil]
    ring

theorem dot_r2_value_eq_zero {K : Type} [Field K] (c : Datum K) (L : Nat) (h : L ≤ 9) :
    dot_r2_value c L = 0 := by
  unfold dot_r2_value Vector_index Vector
  interval_cases L <;> simp

theorem laplac_weight_eq {K : Type} [Field K] (L : Nat) :
    laplac_weight (K := K) L = ((L ^ 2 * (L + 1) ^ 2 : Nat) : K) := by
  unfold laplac_weight
  push_cast
  ring

theorem prod_span3_odd {K : Type} [Field K] (L : Nat) :
    prod (K := K) (span3 1 2 ((L : Int) + 1))
      = ((List.range (L / 2 + 1)).map (fun (i : Nat) => ((2 * i + 1 : Nat) : K))).prod := by
  unfold prod span3
  have h1 : ¬ ((L : Int) + 1 < 1) := by omega
  have h2 : (((L : Int) + 1 - 1) / 2 + 1).toNat = L / 2 + 1 := by omega
  rw [if_neg h1, h2, List.map_map]
  congr 1
  apply List.map_congr_left
  intro i _
  simp only [Function.comp]
  push_cast
  ring

theorem prod_span2_even {K : Type} [Field K] (L : Nat) :
    prod (K := K) (span2 2 ((L : Int) - 2))
      = ((List.range (L / 2 - 1)).map (fun (i : Nat) => ((2 * i + 2 : Nat) : K))).prod := by
  unfold prod span2 span3
  by_cases h : (L : Int) - 2 < 2
  · have h0 : L / 2 - 1 = 0 := by omega
    rw [if_pos h, h0]
    simp
  · have h2 : (((L : Int) - 2 - 2) / 2 + 1).toNat = L / 2 - 1 := by omega
    rw [if_neg h, h2, List.map_map]
    congr 1
    apply List.map_congr_left
    intro i _
    simp only [Function.comp]
    push_cast
    ring

theorem factor_csa_pos {K : Type} [Field K] (c : Datum K) (L : Nat) (h : 0 < L) :
    factor_csa c L = spec_factor_csa c.pi L := by
  unfold factor_csa spec_factor_csa
  rw [if_pos h, prod_span3_odd, prod_span2_even]

theorem factor_csa_zero {K : Type} [Field K] (c : Datum K) :
    factor_csa c 0 = 1 / (2 * c.sqrt c.pi) := by
  simp [factor_csa]

theorem create_eq {K : Type} [Field K] [DecidableEq K] (ext : Externals K) (c : Datum K)
    (V diffGrads : Mat K) (diffBvals : List K) (opts : options K) :
    create_Kernel_for_dotr2 ext c V diffGrads diffBvals opts = Except.ok
      { Lmax := cap_Lmax (ext.obtain_Lmax diffGrads).1,
        indb0 := find_eq_zero (sum_rows c diffGrads),
        indb1 := find_ne_zero (sum_rows c diffGrads),
        basisG := ext.construct_SH_basis (cap_Lmax (ext.obtain_Lmax diffGrads).1)
          (rows diffGrads (find_ne_zero (sum_rows c diffGrads))),
        basisV := ext.construct_SH_basis (cap_Lmax (ext.obtain_Lmax diffGrads).1) V,
        K_dot_r2 := (match opts.reconsMethod with
          | ReconsMethod.QBI_DOTR2 =>
            blocks (cap_Lmax (ext.obtain_Lmax diffGrads).1) (dot_r2_value c)
          | _ => []),
        K_csa := (match opts.reconsMethod with
          | ReconsMethod.QBI_CSA =>
            blocks (cap_Lmax (ext.obtain_Lmax diffGrads).1) (factor_csa c)
          | _ => []),
        Laplac2 := blocks (cap_Lmax (ext.obtain_Lmax diffGrads).1) laplac_weight,
        Laplac := diagmat (blocks (cap_Lmax (ext.obtain_Lmax diffGrads).1) laplac_weight),
        Kernel := ext.recon_matrix
          (ext.construct_SH_basis (cap_Lmax (ext.obtain_Lmax diffGrads).1)
            (rows diffGrads (find_ne_zero (sum_rows c diffGrads))))
          (diagmat (blocks (cap_Lmax (ext.obtain_Lmax diffGrads).1) laplac_weight))
          opts.lambda } := by
  have hcap := cap_Lmax_le (ext.obtain_Lmax diffGrads).1
  have hloop := outer_loop_ok c opts.reconsMethod (cap_Lmax (ext.obtain_Lmax diffGrads).1)
    (fun _ => by omega) (cap_Lmax (ext.obtain_Lmax diffGrads).1 / 2 + 1) 0
    { K_dot_r2_v := [], K_csa_v := [], Laplac2_v := [] } (by omega)
  unfold create_Kernel_for_dotr2
  simp only [hloop, blocks_from_zero_start, List.nil_append]
  cases opts.reconsMethod <;> rfl

/-! ## Gradient classification and the diagonal matrix -/

theorem sum_rows_length {K : Type} [Field K] (c : Datum K) (M : Mat K) :
    (sum_rows c M).length = M.length := by
  simp [sum_rows]

theorem sum_rows_getD {K : Type} [Field K] (c : Datum K) (M : Mat K) (i : Nat) :
    (sum_rows c M).getD i 0 = row_sum c (M.getD i []) := by
  unfold sum_rows
  by_cases h : i < M.length
  · simp [List.getD, List.getElem?_map, List.getElem?_eq_getElem h]
  · have h1 : M.length ≤ i := by omega
    simp [List.getD, List.getElem?_map, List.getElem?_eq_none h1, row_sum]

theorem mem_find_eq_zero {K : Type} [Field K] [DecidableEq K] (v : List K) (i : Nat) :
    i ∈ find_eq_zero v ↔ i < v.length ∧ v.getD i 0 = 0 := by
  simp [find_eq_zero, List.mem_filter]

theorem mem_find_ne_zero {K : Type} [Field K] [DecidableEq K] (v : List K) (i : Nat) :
    i ∈ find_ne_zero v ↔ i < v.length ∧ v.getD i 0 ≠ 0 := by
  simp [find_ne_zero, List.mem_filter]

theorem find_eq_zero_nodup {K : Type} [Field K] [DecidableEq K] (v : List K) :
    (find_eq_zero v).Nodup :=
  List.Nodup.filter _ (List.nodup_range _)

theorem find_ne_zero_nodup {K : Type} [Field K] [DecidableEq K] (v : List K) :
    (find_ne_zero v).Nodup :=
  List.Nodup.filter _ (List.nodup_range _)

theorem find_perm_range {K : Type} [Field K] [DecidableEq K] (v : List K) :
    (find_eq_zero v ++ find_ne_zero v).Perm (List.range v.length) := by
  have h := List.filter_append_perm (fun (i : Nat) => decide (v.getD i 0 = 0)) (List.range v.length)
  have hfun : (fun (i : Nat) => decide (v.getD i 0 ≠ 0))
      = (fun (i : Nat) => !(decide (v.getD i 0 = 0))) := by
    funext i
    simp
  unfold find_eq_zero find_ne_zero
  rw [hfun]
  exact h

theorem find_counts {K : Type} [Field K] [DecidableEq K] (v : List K) (i : Nat)
    (hi : i < v.length) :
    ((find_eq_zero v).count i = 1 ∧ (find_ne_zero v).count i = 0) ∨
    ((find_eq_zero v).count i = 0 ∧ (find_ne_zero v).count i = 1) := by
  by_cases hz : v.getD i 0 = 0
  · left
    refine ⟨List.count_eq_one_of_mem (find_eq_zero_nodup v) ((mem_find_eq_zero v i).2 ⟨hi, hz⟩), ?_⟩
    apply List.count_eq_zero_of_not_mem
    rw [mem_find_ne_zero]
    exact fun h => h.2 hz
  · right
    refine ⟨?_, List.count_eq_one_of_mem (find_ne_zero_nodup v) ((mem_find_ne_zero v i).2 ⟨hi, hz⟩)⟩
    apply List.count_eq_zero_of_not_mem
    rw [mem_find_eq_zero]
    exact fun h => hz h.2

theorem diagmat_entry {K : Type} [Field K] (v : List K) (i j : Nat) (hi : i < v.length)
    (hj : j < v.length) :
    ((diagmat v).getD i []).getD j 0 = if i = j then v.getD i 0 else 0 := by
  simp [diagmat, List.getD, List.getElem?_map, List.getElem?_range, hi, hj]

theorem row_sum_zeros {K : Type} [Field K] (c : Datum K) (hzero : c.add 0 0 = 0)
    (row : List K) (h : ∀ x ∈ row, x = 0) : row_sum c row = 0 := by
  unfold row_sum
  induction row with
  | nil => rfl
  | cons x xs ih =>
    have hx : x = 0 := h x (List.mem_cons_self _ _)
    subst hx
    rw [List.foldl_cons, hzero]
    exact ih (fun y hy => h y (List.mem_cons_of_mem _ hy))

theorem map_filter_range_getD {α : Type} (p : α → Bool) (d : α) (l : List α) :
    ((List.range l.length).filter (fun (i : Nat) => p (l.getD i d))).map
        (fun (i : Nat) => l.getD i d) = l.filter p := by
  induction l using List.reverseRecOn with
  | nil => rfl
  | append_singleton l a ih =>
    have hpre : ∀ i, i < l.length → (l ++ [a]).getD i d = l.getD i d := by
      intro i hi
      simp [List.getD, List.getElem?_append_left hi]
    have hlast : (l ++ [a]).getD l.length d = a := by
      simp [List.getD]
    rw [List.length_append, List.length_singleton, List.range_succ, List.filter_append,
      List.map_append, List.filter_append]
    congr 1
    · rw [← ih]
      have hf : (List.range l.length).filter (fun (i : Nat) => p ((l ++ [a]).getD i d))
          = (List.range l.length).filter (fun (i : Nat) => p (l.getD i d)) := by
        apply List.filter_congr
        intro i hi
        rw [hpre i (List.mem_range.1 hi)]
      rw [hf]
      apply List.map_congr_left
      intro i hi
      exact hpre i (List.mem_range.1 (List.mem_filter.1 hi).1)
    · by_cases hp : p a = true
      · simp [List.filter_cons, hlast, hp]
      · simp [List.filter_cons, hlast, hp]

theorem rows_find_ne_zero {K : Type} [Field K] [DecidableEq K] (c : Datum K) (M : Mat K) :
    rows M (find_ne_zero (sum_rows c M))
      = M.filter (fun row => decide (row_sum c row ≠ 0)) := by
  have h := map_filter_range_getD (fun row => decide (row_sum c row ≠ 0)) [] M
  unfold rows find_ne_zero
  rw [sum_rows_length]
  simp only [sum_rows_getD]
  exact h

theorem rows_length {K : Type} (M : Mat K) (idx : List Nat) : (rows M idx).length = idx.length := by
  simp [rows]

/-! ## The claims -/

/-- C1 (as the code behaves): with the DOT-R2 method selected the function
returns, and every scalar appended to `K_dot_r2` is `0`, for every order `L`
visited; the first entry (`L = 0`, `m = 0`) is `0`, whereas the specified
factor at `L = 0` is `4/pi`. -/
theorem dot_r2_coefficients_all_zero {K : Type} [Field K] [DecidableEq K] (ext : Externals K)
    (c : Datum K) (V diffGrads : Mat K) (diffBvals : List K) (lam : K) :
    ∃ r, create_Kernel_for_dotr2 ext c V diffGrads diffBvals
          { reconsMethod := ReconsMethod.QBI_DOTR2, lambda := lam } = Except.ok r ∧
      r.K_dot_r2 = blocks (cap_Lmax (ext.obtain_Lmax diffGrads).1) (fun _ => (0 : K)) ∧
      r.K_dot_r2.head? = some 0 ∧
      spec_factor_dot_r2 c.pi 0 = 4 / c.pi := by
  refine ⟨_, create_eq ext c V diffGrads diffBvals _, ?_, ?_, ?_⟩
  · exact blocks_congr _ _ _ (fun L _ hL =>
      dot_r2_value_eq_zero c L (le_trans hL (le_trans (cap_Lmax_le _) (by decide))))
  · show (blocks _ (dot_r2_value c)).head? = some 0
    rw [blocks_head, List.head?_cons, dot_r2_value_eq_zero c 0 (by decide)]
  · simp [spec_factor_dot_r2, spec_Vector]

/-- C2 (as the code behaves): for every element type the table `Vector` holds
`1, 0, 0, 0, 0, 0`, the integer quotients of its initialisers; over the
rationals it differs from the specified table
`1, 3/32, 15/64, 210/1536, 630/15360, 13860/1720320`. -/
theorem Vector_holds_integer_quotients :
    (∀ (K : Type) [Field K], Vector K = [1, 0, 0, 0, 0, 0]) ∧ Vector ℚ ≠ spec_Vector ℚ := by
  constructor
  · intro K _
    simp [Vector]
  · norm_num [Vector, spec_Vector]

/-- C3: with the CSA-QBI method selected the function returns, and `K_csa`
consists, for every even `L ≤ Lmax` in increasing order, of `2L+1` copies of
the factor of order `L`, which for `L > 0` is
`(-1/(8π)) · (-1)^(L/2) · (1·3·…·(L+1)) / (2·4·…·(L-2))`, an empty product
being 1; at `L = 6` it is `(-1/(8π)) · (-1) · (1·3·5·7) / (2·4)`. The range
helper of the two products is the one modelled from the specification. -/
theorem csa_coefficients_follow_formula {K : Type} [Field K] [DecidableEq K]
    (ext : Externals K) (c : Datum K) (V diffGrads : Mat K) (diffBvals : List K) (lam : K) :
    ∃ r, create_Kernel_for_dotr2 ext c V diffGrads diffBvals
          { reconsMethod := ReconsMethod.QBI_CSA, lambda := lam } = Except.ok r ∧
      r.K_csa = blocks (cap_Lmax (ext.obtain_Lmax diffGrads).1)
        (fun L => if 0 < L then spec_factor_csa c.pi L else 1 / (2 * c.sqrt c.pi)) ∧
      factor_csa c 6 = (-1 / (8 * c.pi)) * (-1) * (1 * 3 * 5 * 7) / (2 * 4) := by
  refine ⟨_, create_eq ext c V diffGrads diffBvals _, ?_, ?_⟩
  · apply blocks_congr
    intro L _ _
    by_cases h : 0 < L
    · rw [if_pos h, factor_csa_pos c L h]
    · have h0 : L = 0 := by omega
      subst h0
      simp [factor_csa_zero]
  · rw [factor_csa_pos c 6 (by decide)]
    simp only [spec_factor_csa]
    norm_num [List.range_succ]

/-- C4: with the CSA-QBI method selected the function returns, the coefficient
appended for `L = 0` is `1/(2·sqrt(π))`, and when `Lmax ≥ 2` the five
coefficients appended next, for `L = 2` and `m = -2..2`, each are `3/(8π)`. -/
theorem csa_coefficients_at_zero_and_two {K : Type} [Field K] [DecidableEq K]
    (ext : Externals K) (c : Datum K) (V diffGrads : Mat K) (diffBvals : List K) (lam : K) :
    ∃ r, create_Kernel_for_dotr2 ext c V diffGrads diffBvals
          { reconsMethod := ReconsMethod.QBI_CSA, lambda := lam } = Except.ok r ∧
      r.K_csa.head? = some (1 / (2 * c.sqrt c.pi)) ∧
      (2 ≤ cap_Lmax (ext.obtain_Lmax diffGrads).1 →
        r.K_csa.take 6 = 1 / (2 * c.sqrt c.pi) :: List.replicate 5 (3 / (8 * c.pi))) := by
  refine ⟨_, create_eq ext c V diffGrads diffBvals _, ?_, ?_⟩
  · show (blocks _ (factor_csa c)).head? = _
    rw [blocks_head, List.head?_cons, factor_csa_zero]
  · intro h2
    show (blocks _ (factor_csa c)).take 6 = _
    obtain ⟨k, hk⟩ : ∃ k, cap_Lmax (ext.obtain_Lmax diffGrads).1 / 2 = k + 1 :=
      ⟨cap_Lmax (ext.obtain_Lmax diffGrads).1 / 2 - 1, by omega⟩
    have hf2 : factor_csa c 2 = 3 / (8 * c.pi) := by
      rw [factor_csa_pos c 2 (by decide)]
      simp only [spec_factor_csa]
      norm_num [List.range_succ]
      ring
    rw [blocks_head, hk, blocks_from_succ, factor_csa_zero, hf2]
    simp [List.take_append_eq_append_take, List.take_replicate]

/-- C4, at a concrete input: `Lmax = 6` and rational stand-ins for `π` and the
square root. -/
theorem csa_coefficients_at_zero_and_two_sample :
    (create_Kernel_for_dotr2 (sample_externals ℚ) sample_datum [] [[1, 0, 0]] [1000]
        { reconsMethod := ReconsMethod.QBI_CSA, lambda := 0 }).toOption.map
      (fun r => r.K_csa.take 6)
      = some (1 / (2 * sample_datum.sqrt sample_datum.pi)
          :: List.replicate 5 (3 / (8 * sample_datum.pi))) := by
  obtain ⟨r, hr, _, h2⟩ := csa_coefficients_at_zero_and_two (sample_externals ℚ) sample_datum
    [] [[1, 0, 0]] [1000] 0
  rw [hr]
  simp only [Except.toOption, Option.map_some']
  rw [h2 (by decide)]

/-- C5, counterexample: called with an unsupported method the function returns
normally; it raises no error. -/
theorem unsupported_method_returns_normally :
    (∃ r, create_Kernel_for_dotr2 (sample_externals ℚ) sample_datum [] [[1, 0, 0]] [1000]
        { reconsMethod := ReconsMethod.other 0, lambda := 0 } = Except.ok r) ∧
    ¬ ∃ e, create_Kernel_for_dotr2 (sample_externals ℚ) sample_datum [] [[1, 0, 0]] [1000]
        { reconsMethod := ReconsMethod.other 0, lambda := 0 } = Except.error e := by
  refine ⟨⟨_, create_eq _ _ _ _ _ _⟩, ?_⟩
  rintro ⟨e, he⟩
  rw [create_eq] at he
  cases he

/-- C5 (amended): for every method other than `QBI_DOTR2` and `QBI_CSA` the
function returns normally with both coefficient vectors empty; the Laplacian
weights and the kernel are built as for a supported method. -/
theorem unsupported_method_empty_coefficients {K : Type} [Field K] [DecidableEq K]
    (ext : Externals K) (c : Datum K) (V diffGrads : Mat K) (diffBvals : List K) (tag : Nat)
    (lam : K) :
    ∃ r, create_Kernel_for_dotr2 ext c V diffGrads diffBvals
          { reconsMethod := ReconsMethod.other tag, lambda := lam } = Except.ok r ∧
      r.K_dot_r2 = [] ∧ r.K_csa = [] ∧
      r.Laplac2 = blocks (cap_Lmax (ext.obtain_Lmax diffGrads).1) laplac_weight ∧
      r.Kernel = ext.recon_matrix r.basisG (diagmat r.Laplac2) lam :=
  ⟨_, create_eq ext c V diffGrads diffBvals _, rfl, rfl, rfl, rfl⟩

/-- C6: for every gradient table the function returns, and `indb0`, `indb1`
partition the row indices `0..nrows-1`: together they are a rearrangement of
`0..nrows-1`, and every row index occurs exactly once in one of them and not
at all in the other. -/
theorem gradient_indices_partition {K : Type} [Field K] [DecidableEq K] (ext : Externals K)
    (c : Datum K) (V diffGrads : Mat K) (diffBvals : List K) (opts : options K) :
    ∃ r, create_Kernel_for_dotr2 ext c V diffGrads diffBvals opts = Except.ok r ∧
      (r.indb0 ++ r.indb1).Perm (List.range diffGrads.length) ∧
      (∀ i, i < diffGrads.length →
        (r.indb0.count i = 1 ∧ r.indb1.count i = 0) ∨
        (r.indb0.count i = 0 ∧ r.indb1.count i = 1)) ∧
      (∀ i, diffGrads.length ≤ i → r.indb0.count i = 0 ∧ r.indb1.count i = 0) := by
  refine ⟨_, create_eq ext c V diffGrads diffBvals opts, ?_, ?_, ?_⟩
  · have h := find_perm_range (sum_rows c diffGrads)
    rw [sum_rows_length] at h
    exact h
  · intro i hi
    exact find_counts (sum_rows c diffGrads) i (by rw [sum_rows_length]; exact hi)
  · intro i hi
    constructor
    · apply List.count_eq_zero_of_not_mem
      show i ∉ find_eq_zero (sum_rows c diffGrads)
      rw [mem_find_eq_zero, sum_rows_length]
      omega
    · apply List.count_eq_zero_of_not_mem
      show i ∉ find_ne_zero (sum_rows c diffGrads)
      rw [mem_find_ne_zero, sum_rows_length]
      omega

/-- C7, counterexample: the single gradient row `(1, -1, 0)` is nonzero, yet
the function places it in the b0 set: its components add up to zero (exactly,
also in `float` and `double`); the b1 set is empty and no row is handed on for
`basisG`. -/
theorem cancelling_gradient_is_b0 :
    ∃ r, create_Kernel_for_dotr2 (sample_externals ℚ) sample_datum [] [[1, -1, 0]] [1000]
          { reconsMethod := ReconsMethod.QBI_DOTR2, lambda := 0 } = Except.ok r ∧
      r.indb0 = [0] ∧ r.indb1 = [] ∧ r.basisG = [] ∧ ([1, -1, 0] : List ℚ) ≠ [0, 0, 0] := by
  refine ⟨_, create_eq _ _ _ _ _ _, ?_, ?_, ?_, ?_⟩
  · show find_eq_zero (sum_rows sample_datum ([[1, -1, 0]] : Mat ℚ)) = [0]
    simp [find_eq_zero, sum_rows, row_sum, sample_datum, List.range_succ, List.filter_cons]
  · show find_ne_zero (sum_rows sample_datum ([[1, -1, 0]] : Mat ℚ)) = []
    simp [find_ne_zero, sum_rows, row_sum, sample_datum, List.range_succ, List.filter_cons]
  · show rows ([[1, -1, 0]] : Mat ℚ)
      (find_ne_zero (sum_rows sample_datum ([[1, -1, 0]] : Mat ℚ))) = []
    simp [rows, find_ne_zero, sum_rows, row_sum, sample_datum, List.range_succ,
      List.filter_cons]
  · simp

/-- C7 (amended): a row is placed in the b0 index set exactly when the sum of
its components, as accumulated in `T`, is zero, and in the b1 set exactly when
that sum is nonzero; every row whose components all are zero is b0. The rows
handed to `construct_SH_basis` for `basisG` are exactly the rows with a nonzero
sum, in their original order, so that each b1 row contributes a row to `basisG`
when `construct_SH_basis` returns one row per direction. -/
theorem gradient_class_by_computed_sum {K : Type} [Field K] [DecidableEq K]
    (ext : Externals K) (c : Datum K) (V diffGrads : Mat K) (diffBvals : List K)
    (opts : options K)
    (hrows : ∀ (L : Nat) (M : Mat K), (ext.construct_SH_basis L M).length = M.length)
    (hzero : c.add 0 0 = 0) :
    ∃ r, create_Kernel_for_dotr2 ext c V diffGrads diffBvals opts = Except.ok r ∧
      (∀ i, i < diffGrads.length →
        (i ∈ r.indb0 ↔ row_sum c (diffGrads.getD i []) = 0) ∧
        (i ∈ r.indb1 ↔ row_sum c (diffGrads.getD i []) ≠ 0) ∧
        ((∀ x ∈ diffGrads.getD i [], x = 0) → i ∈ r.indb0)) ∧
      rows diffGrads r.indb1 = diffGrads.filter (fun row => decide (row_sum c row ≠ 0)) ∧
      r.basisG = ext.construct_SH_basis r.Lmax (rows diffGrads r.indb1) ∧
      r.basisG.length = r.indb1.length ∧
      r.basisG.length = (diffGrads.filter (fun row => decide (row_sum c row ≠ 0))).length := by
  refine ⟨_, create_eq ext c V diffGrads diffBvals opts, ?_, rows_find_ne_zero c diffGrads, rfl,
    ?_, ?_⟩
  · intro i hi
    have h0 : i ∈ find_eq_zero (sum_rows c diffGrads) ↔ row_sum c (diffGrads.getD i []) = 0 := by
      rw [mem_find_eq_zero, sum_rows_length, sum_rows_getD]
      exact ⟨fun h => h.2, fun h => ⟨hi, h⟩⟩
    have h1 : i ∈ find_ne_zero (sum_rows c diffGrads) ↔ row_sum c (diffGrads.getD i []) ≠ 0 := by
      rw [mem_find_ne_zero, sum_rows_length, sum_rows_getD]
      exact ⟨fun h => h.2, fun h => ⟨hi, h⟩⟩
    exact ⟨h0, h1, fun hz => h0.2 (row_sum_zeros c hzero _ hz)⟩
  · show (ext.construct_SH_basis _ _).length = _
    rw [hrows, rows_length]
  · show (ext.construct_SH_basis _ _).length = _
    rw [hrows, rows_find_ne_zero]

/-- C7 (amended), at a concrete input: a table of a zero row, the direction
`(1, 0, 0)` and the cancelling row `(1, -1, 0)`; only the second row is b1 and
is handed on. -/
theorem gradient_class_by_computed_sum_sample :
    ∃ r, create_Kernel_for_dotr2 (sample_externals ℚ) sample_datum []
          [[0, 0, 0], [1, 0, 0], [1, -1, 0]] [0, 1000, 1000]
          { reconsMethod := ReconsMethod.QBI_CSA, lambda := 0 } = Except.ok r ∧
      rows ([[0, 0, 0], [1, 0, 0], [1, -1, 0]] : Mat ℚ) r.indb1 = [[1, 0, 0]] ∧
      r.basisG.length = r.indb1.length := by
  obtain ⟨r, hr, _, hrows, _, hlen, _⟩ := gradient_class_by_computed_sum (sample_externals ℚ)
    sample_datum [] [[0, 0, 0], [1, 0, 0], [1, -1, 0]] [0, 1000, 1000]
    { reconsMethod := ReconsMethod.QBI_CSA, lambda := 0 } (fun _ _ => rfl)
    (by simp [sample_datum])
  refine ⟨r, hr, ?_, hlen⟩
  rw [hrows]
  simp [row_sum, sample_datum, List.filter_cons]

theorem even_orders_increasing (Lmax : Nat) : (even_orders Lmax).Pairwise (fun a b => a < b) := by
  unfold even_orders
  rw [List.pairwise_map]
  exact (List.pairwise_lt_range _).imp (fun h => by omega)

theorem sum_even_orders_closed (Lmax : Nat) (h : Lmax % 2 = 0) :
    ((even_orders Lmax).map (fun L => 2 * L + 1)).sum = (Lmax + 1) * (Lmax + 2) / 2 := by
  rw [sum_even_orders]
  obtain ⟨k, rfl⟩ : ∃ k, Lmax = 2 * k := ⟨Lmax / 2, by omega⟩
  have h1 : 2 * k / 2 = k := by omega
  have h2 : (2 * k + 1) * (2 * k + 2) = 2 * ((k + 1) * (2 * k + 1)) := by ring
  rw [h1, h2, Nat.mul_div_cancel_left _ (by decide : 0 < 2)]

theorem loop_body_dot_r2_ten {K : Type} [Field K] (c : Datum K) (acc : Acc K) :
    loop_body c ReconsMethod.QBI_DOTR2 10 acc
      = Except.error "Mat::operator(): index out of bounds" := by
  simp [loop_body, factor_dot_r2, Vector_at, Vector_index, Vector, bind, Except.bind]

theorem outer_loop_dot_r2_uncapped {K : Type} [Field K] (c : Datum K) (Lmax : Nat)
    (hmax : 10 ≤ Lmax) :
    ∀ (k L : Nat) (acc : Acc K), L + 2 * k = 10 →
      outer_loop c ReconsMethod.QBI_DOTR2 Lmax L acc
        = Except.error "Mat::operator(): index out of bounds" := by
  intro k
  induction k with
  | zero =>
    intro L acc hL
    have h10 : L = 10 := by omega
    subst h10
    rw [outer_loop, if_pos hmax, inner_loop, if_pos (by omega), loop_body_dot_r2_ten]
  | succ k ih =>
    intro L acc hL
    have hin := inner_loop_ok c ReconsMethod.QBI_DOTR2 L (fun _ => by omega) (2 * L + 1)
      (-(L : Int)) acc (by omega)
    rw [outer_loop, if_pos (by omega), hin]
    exact ih (L + 2) _ (by omega)

/-- C8: whatever the method, the function returns and `Laplac2` consists, for
every even `L ≤ Lmax` in increasing order, of `2L+1` copies of `L²(L+1)²`
(0, 36, 400, 1764, 5184 for `L` = 0, 2, 4, 6, 8); `Laplac` is the diagonal
matrix with these entries. -/
theorem laplacian_weights_exact {K : Type} [Field K] [DecidableEq K] (ext : Externals K)
    (c : Datum K) (V diffGrads : Mat K) (diffBvals : List K) (opts : options K) :
    ∃ r, create_Kernel_for_dotr2 ext c V diffGrads diffBvals opts = Except.ok r ∧
      r.Laplac2 = blocks (cap_Lmax (ext.obtain_Lmax diffGrads).1)
        (fun L => ((L ^ 2 * (L + 1) ^ 2 : Nat) : K)) ∧
      r.Laplac = diagmat r.Laplac2 ∧
      (∀ i j, i < r.Laplac2.length → j < r.Laplac2.length →
        (r.Laplac.getD i []).getD j 0 = if i = j then r.Laplac2.getD i 0 else 0) ∧
      [0, 2, 4, 6, 8].map (fun L => L ^ 2 * (L + 1) ^ 2) = [0, 36, 400, 1764, 5184] := by
  refine ⟨_, create_eq ext c V diffGrads diffBvals opts, ?_, rfl, ?_, by decide⟩
  · exact blocks_congr _ _ _ (fun L _ _ => laplac_weight_eq L)
  · intro i j hi hj
    exact diagmat_entry _ i j hi hj

/-- C9: for either supported method the function returns, and the selected
coefficient vector and `Laplac2` both consist of one block per even
`L ≤ Lmax`, in increasing order of `L`, each block being `2L+1` copies of a
value that depends on `L` only; both have `Σ (2L+1)` entries over the even
`L ≤ Lmax`, which is `(Lmax+1)(Lmax+2)/2` for even `Lmax` and 45 for
`Lmax = 8`. -/
theorem coefficient_vectors_layout {K : Type} [Field K] [DecidableEq K] (ext : Externals K)
    (c : Datum K) (V diffGrads : Mat K) (diffBvals : List K) (lam : K) :
    (∃ r, create_Kernel_for_dotr2 ext c V diffGrads diffBvals
          { reconsMethod := ReconsMethod.QBI_DOTR2, lambda := lam } = Except.ok r ∧
      r.K_dot_r2 = blocks r.Lmax (dot_r2_value c) ∧
      r.Laplac2 = blocks r.Lmax laplac_weight ∧
      r.K_dot_r2.length = ((even_orders r.Lmax).map (fun L => 2 * L + 1)).sum ∧
      r.Laplac2.length = ((even_orders r.Lmax).map (fun L => 2 * L + 1)).sum ∧
      r.Lmax = cap_Lmax (ext.obtain_Lmax diffGrads).1) ∧
    (∃ r, create_Kernel_for_dotr2 ext c V diffGrads diffBvals
          { reconsMethod := ReconsMethod.QBI_CSA, lambda := lam } = Except.ok r ∧
      r.K_csa = blocks r.Lmax (factor_csa c) ∧
      r.Laplac2 = blocks r.Lmax laplac_weight ∧
      r.K_csa.length = ((even_orders r.Lmax).map (fun L => 2 * L + 1)).sum ∧
      r.Laplac2.length = ((even_orders r.Lmax).map (fun L => 2 * L + 1)).sum ∧
      r.Lmax = cap_Lmax (ext.obtain_Lmax diffGrads).1) ∧
    (∀ Lmax L, L ∈ even_orders Lmax ↔ L % 2 = 0 ∧ L ≤ Lmax) ∧
    (∀ Lmax, (even_orders Lmax).Pairwise (fun a b => a < b)) ∧
    (∀ Lmax, Lmax % 2 = 0 →
      ((even_orders Lmax).map (fun L => 2 * L + 1)).sum = (Lmax + 1) * (Lmax + 2) / 2) ∧
    ((even_orders 8).map (fun L => 2 * L + 1)).sum = 45 := by
  refine ⟨⟨_, create_eq ext c V diffGrads diffBvals _, rfl, rfl, blocks_length _ _,
      blocks_length _ _, rfl⟩,
    ⟨_, create_eq ext c V diffGrads diffBvals _, rfl, rfl, blocks_length _ _,
      blocks_length _ _, rfl⟩,
    mem_even_orders, even_orders_increasing, sum_even_orders_closed, by decide⟩

/-- C10: whatever `obtain_Lmax` reports, with the DOT-R2 method the function
returns (no lookup leaves the table): for every `L` up to the capped `Lmax` the
index `L/2 + 1` is below 6 and the lookup succeeds. Without the cap the loop
run with any `Lmax ≥ 10` stops with the out-of-bounds error, the index at
`L = 10` being 6. -/
theorem Vector_lookup_within_table {K : Type} [Field K] [DecidableEq K] (ext : Externals K)
    (c : Datum K) (V diffGrads : Mat K) (diffBvals : List K) (lam : K) :
    (∃ r, create_Kernel_for_dotr2 ext c V diffGrads diffBvals
          { reconsMethod := ReconsMethod.QBI_DOTR2, lambda := lam } = Except.ok r) ∧
    (Vector K).length = 6 ∧
    (∀ L, L ≤ cap_Lmax (ext.obtain_Lmax diffGrads).1 →
      Vector_index L ≤ 5 ∧
      Vector_at K (Vector_index L) = Except.ok ((Vector K).getD (Vector_index L) 0)) ∧
    Vector_index 10 = 6 ∧
    Vector_at K 6 = Except.error "Mat::operator(): index out of bounds" ∧
    (∀ Lmax, 10 ≤ Lmax →
      outer_loop c ReconsMethod.QBI_DOTR2 Lmax 0
          { K_dot_r2_v := [], K_csa_v := [], Laplac2_v := [] }
        = Except.error "Mat::operator(): index out of bounds") := by
  refine ⟨⟨_, create_eq ext c V diffGrads diffBvals _⟩, rfl, ?_, rfl, rfl, ?_⟩
  · intro L hL
    have h8 := cap_Lmax_le (ext.obtain_Lmax diffGrads).1
    have hi : Vector_index L ≤ 5 := by unfold Vector_index; omega
    exact ⟨hi, Vector_at_ok _ (by omega)⟩
  · intro Lmax hmax
    exact outer_loop_dot_r2_uncapped c Lmax hmax 5 0 _ (by decide)

end Phardi
